import Mathlib

/-
Shallow embedding of the Note-Synthesis pipeline (src/process_notes.py and
src/synthesis.py): ingestion (pre_process_notes), the extraction stage
(extract_categories), the taxonomy normalizer (merge_categories) and the
category indexer (build_category_notes), together with theorems settling the
specification claims about them.

Python dictionaries are modelled as association lists that preserve insertion
order (matching CPython dict semantics); the external language-model
collaborator is a parameter, exactly as in the source where it is the
abstract Model interface.
-/

set_option autoImplicit false

namespace NoteSynthesis

/-- A raw note as ingested by pre_process_notes: the dict with keys
title, content, ID built in src/process_notes.py lines 13-17. -/
structure NoteRecord where
  title : String
  content : String
  ID : Nat
deriving DecidableEq

/-- Response model for extracted categories and content
(class Extraction, src/synthesis.py lines 9-12). -/
structure Extraction where
  category : String
  content : String
deriving DecidableEq

/-- Response model for extracted note categories and content
(class CategoryExtractionResponse, src/synthesis.py lines 14-18).
Note that note_id is a string field there, while NoteRecord.ID is an
integer; the schema enforces types only, no cross-field invariant. -/
structure CategoryExtractionResponse where
  note_id : String
  extractions : List Extraction
  unused : Bool
deriving DecidableEq

/-- Response model for the category mapping structure
(class CategoryNormalization, src/synthesis.py lines 20-22); the dict of
canonical category to list of raw categories is an ordered association
list here. -/
structure CategoryNormalization where
  categories : List (String × List String)
deriving DecidableEq

/-- One element appended to a bucket of the category index: the dict with
keys note_id and content built at src/synthesis.py lines 259-262. -/
structure Entry where
  note_id : String
  content : String
deriving DecidableEq

/-- The organized_notes dict of build_category_notes: canonical category to
ordered list of entries, as an insertion-ordered association list. -/
abbrev CategoryIndex := List (String × List Entry)

/-- Filesystem state touched by pre_process_notes: the inbox directory
(filename and content of each note source, in scan order), the processed
directory, and the persisted notes.json snapshot. -/
structure FSState where
  inbox : List (String × String)
  processed : List (String × String)
  snapshot : List NoteRecord
deriving DecidableEq

/-- pre_process_notes (src/process_notes.py lines 5-22, identically
src/synthesis.py lines 110-129): enumerate the inbox sources in scan order,
build one NoteRecord per source with dense ids starting at 0, move every
source to the processed area, and overwrite notes.json with the array that
was just built. -/
def pre_process_notes (s : FSState) : FSState :=
  let notes_array := s.inbox.enum.map fun p =>
    { title := p.2.1, content := p.2.2, ID := p.1 }
  { inbox := []
    processed := s.processed ++ s.inbox
    snapshot := notes_array }

/-- extract_categories (src/synthesis.py lines 133-170) with the collaborator
abstracted: for each note, invoke the model and append the schema-validated
response to response_list; the returned list is what is persisted to
extractions.json. The model argument stands for a run in which every
invocation returned a schema-valid response (any other run is a hard error
and persists nothing). -/
def extract_categories (model : NoteRecord → CategoryExtractionResponse)
    (notes : List NoteRecord) : List CategoryExtractionResponse :=
  notes.foldl (fun response_list note => response_list ++ [model note]) []

/-- The all_categories_list built by merge_categories (src/synthesis.py
lines 183-187): every category of every extraction of every non-unused
record, in iteration order. -/
def all_categories_list (extractions : List CategoryExtractionResponse) :
    List String :=
  extractions.foldl
    (fun acc note =>
      if note.unused then acc
      else acc ++ note.extractions.map fun e => e.category)
    []

/-- merge_categories (src/synthesis.py lines 174-198) with the collaborator
abstracted: collect the raw labels, invoke the model once, and persist the
schema-validated CategoryNormalization verbatim. The source performs no
check beyond schema validation. -/
def merge_categories (model : List String → CategoryNormalization)
    (extractions : List CategoryExtractionResponse) : CategoryNormalization :=
  model (all_categories_list extractions)

/-- Step 1 of build_category_notes (src/synthesis.py lines 217-228): the
category_mapping dict from raw (sub) category name to normalized category
name, built by iterating the normalized categories in order and, inside,
their sub categories in order, each assignment overwriting any earlier one.
Modelled as the lookup function of the finished dict. -/
def category_mapping (categories_dict : List (String × List String)) :
    String → Option String :=
  categories_dict.foldl
    (fun lookup g =>
      g.2.foldl
        (fun lk sub_name => fun s => if s = sub_name then some g.1 else lk s)
        lookup)
    (fun _ => none)

/-- The lookup-with-identity-fallback of build_category_notes
(src/synthesis.py lines 247-252): use the normalized category when the raw
category is a key of category_mapping, otherwise the raw category itself. -/
def normalized_cat (lookup : String → Option String) (raw_cat : String) :
    String :=
  match lookup raw_cat with
  | some c => c
  | none => raw_cat

/-- The dict update of build_category_notes (src/synthesis.py lines
254-262): create the category with an empty bucket when absent, then append
the entry to its bucket. On an insertion-ordered association list a missing
key is created at the end. -/
def addToCategory : CategoryIndex → String → Entry → CategoryIndex
  | [], cat, e => [(cat, [e])]
  | p :: rest, cat, e =>
    if p.1 = cat then (p.1, p.2 ++ [e]) :: rest
    else p :: addToCategory rest cat e

/-- The body of the outer loop of build_category_notes (src/synthesis.py
lines 233-262): skip an unused note, otherwise file each of its extractions
under its normalized (or fallback) category. -/
def organize_note (lookup : String → Option String) (organized : CategoryIndex)
    (note : CategoryExtractionResponse) : CategoryIndex :=
  if note.unused then organized
  else
    note.extractions.foldl
      (fun org ex =>
        addToCategory org (normalized_cat lookup ex.category)
          { note_id := note.note_id, content := ex.content })
      organized

/-- build_category_notes (src/synthesis.py lines 202-269): build the inverse
category_mapping, then fold every extraction record into organized_notes,
which is persisted to category_notes.json. -/
def build_category_notes (extractions : List CategoryExtractionResponse)
    (merged_data : CategoryNormalization) : CategoryIndex :=
  extractions.foldl (organize_note (category_mapping merged_data.categories)) []

/-- Bucket of a category in the index: the list stored under the first
(and, by construction, only) occurrence of the key, empty when absent. -/
def bucket : CategoryIndex → String → List Entry
  | [], _ => []
  | p :: rest, cat => if p.1 = cat then p.2 else bucket rest cat

/-- Total number of (note_id, content) entries over all buckets of the
index. -/
def total_entries (idx : CategoryIndex) : Nat :=
  (idx.map fun p => p.2.length).sum

/-- Total number of fragments over all non-unused extraction records. -/
def total_fragments (extractions : List CategoryExtractionResponse) : Nat :=
  (extractions.map fun n => if n.unused then 0 else n.extractions.length).sum

/-- The group whose assignment survives in category_mapping: the
latest-iterated group whose sub categories contain the raw label, if any. -/
def last_match (categories_dict : List (String × List String)) (r : String) :
    Option String :=
  match categories_dict with
  | [] => none
  | g :: rest =>
    match last_match rest r with
    | some c => some c
    | none => if r ∈ g.2 then some g.1 else none

/-- Observable effects of the ingestion loop of pre_process_notes, in
program order: for source i, reading its content, building (appending) its
record, and relocating it to the processed area; after the loop, writing the
snapshot. -/
inductive IngestEvent where
  | read (i : Nat)
  | build (i : Nat)
  | move (i : Nat)
  | writeSnapshot
deriving DecidableEq

/-- One iteration of the ingestion loop (src/process_notes.py lines 12-18):
read_text happens while the record dict is built, the append completes the
record, and shutil.move runs last, still inside the same iteration. -/
def ingest_step (i : Nat) : List IngestEvent :=
  [IngestEvent.read i, IngestEvent.build i, IngestEvent.move i]

/-- Event trace of pre_process_notes on an inbox of n sources: the loop
iterations in order, then the single snapshot write (src/process_notes.py
lines 11-22). -/
def ingest_trace (n : Nat) : List IngestEvent :=
  (List.range n).flatMap ingest_step ++ [IngestEvent.writeSnapshot]

theorem total_entries_nil : total_entries [] = 0 := rfl

theorem total_entries_cons (p : String × List Entry) (rest : CategoryIndex) :
    total_entries (p :: rest) = p.2.length + total_entries rest := by
  simp [total_entries]

theorem total_entries_addToCategory (idx : CategoryIndex) (cat : String)
    (e : Entry) :
    total_entries (addToCategory idx cat e) = total_entries idx + 1 := by
  induction idx with
  | nil => simp [addToCategory, total_entries]
  | cons p rest ih =>
    by_cases h : p.1 = cat
    · simp [addToCategory, h, total_entries_cons]
      omega
    · simp [addToCategory, h, total_entries_cons, ih]
      omega

theorem total_entries_file_extractions (lookup : String → Option String)
    (nid : String) (exs : List Extraction) (idx : CategoryIndex) :
    total_entries
        (exs.foldl
          (fun org ex =>
            addToCategory org (normalized_cat lookup ex.category)
              { note_id := nid, content := ex.content })
          idx)
      = total_entries idx + exs.length := by
  induction exs generalizing idx with
  | nil => simp
  | cons ex rest ih =>
    simp [List.foldl_cons, ih, total_entries_addToCategory]
    omega

theorem total_entries_organize_note (lookup : String → Option String)
    (idx : CategoryIndex) (note : CategoryExtractionResponse) :
    total_entries (organize_note lookup idx note)
      = total_entries idx
        + (if note.unused then 0 else note.extractions.length) := by
  by_cases h : note.unused <;>
    simp [organize_note, h, total_entries_file_extractions]

theorem total_entries_foldl_organize (lookup : String → Option String)
    (exts : List CategoryExtractionResponse) (idx : CategoryIndex) :
    total_entries (exts.foldl (organize_note lookup) idx)
      = total_entries idx + total_fragments exts := by
  induction exts generalizing idx with
  | nil => simp [total_fragments]
  | cons note rest ih =>
    simp [List.foldl_cons, ih, total_entries_organize_note, total_fragments]
    omega

/-- C1: for every list of extraction records and every category mapping, the
CategoryIndex produced by build_category_notes contains each fragment of
each non-unused ExtractionRecord exactly once: the total number of
(note_id, content) entries summed over all index buckets equals the total
number of fragments summed over all non-unused ExtractionRecords, for any
mapping, including one whose groups omit some observed raw labels. -/
theorem build_category_notes_conserves_fragments
    (extractions : List CategoryExtractionResponse)
    (merged_data : CategoryNormalization) :
    total_entries (build_category_notes extractions merged_data)
      = total_fragments extractions := by
  simp [build_category_notes, total_entries_foldl_organize, total_entries_nil]

theorem extract_categories_go (model : NoteRecord → CategoryExtractionResponse)
    (notes : List NoteRecord) :
    ∀ acc : List CategoryExtractionResponse,
      notes.foldl (fun response_list note => response_list ++ [model note]) acc
        = acc ++ notes.map model := by
  induction notes with
  | nil => intro acc; simp
  | cons n rest ih => intro acc; simp [List.foldl_cons, ih]

theorem extract_categories_eq_map
    (model : NoteRecord → CategoryExtractionResponse)
    (notes : List NoteRecord) :
    extract_categories model notes = notes.map model := by
  simpa [extract_categories] using extract_categories_go model notes []

/-- C2 (code-bug evidence): merge_categories performs no completeness
verification after receiving the collaborator mapping. With one non-unused
record carrying the raw label A, that label is observed in
all_categories_list, yet a collaborator mapping with no groups at all is
accepted and persisted verbatim, no group covering A and no defect being
surfaced. -/
theorem merge_categories_accepts_incomplete_mapping :
    merge_categories (fun _ => { categories := [] })
        [{ note_id := "0"
           extractions := [{ category := "A", content := "x" }]
           unused := false }]
      = { categories := [] }
    ∧ "A" ∈ all_categories_list
        [{ note_id := "0"
           extractions := [{ category := "A", content := "x" }]
           unused := false }]
    ∧ ∀ g ∈ (merge_categories (fun _ => ({ categories := [] } : CategoryNormalization))
        [{ note_id := "0"
           extractions := [{ category := "A", content := "x" }]
           unused := false }]).categories, "A" ∉ g.2 := by
  decide

/-- C3 (amended): extract_categories persists the collaborator responses
verbatim after shape-only validation, so every persisted record satisfies
the unused-iff-empty invariant exactly when every collaborator response of
the batch does; the hypothesis states that collaborator compliance. -/
theorem extract_unused_invariant_of_collaborator
    (model : NoteRecord → CategoryExtractionResponse) (notes : List NoteRecord)
    (h : ∀ note ∈ notes,
      ((model note).unused = true ↔ (model note).extractions = []))
    (rec : CategoryExtractionResponse)
    (hrec : rec ∈ extract_categories model notes) :
    rec.unused = true ↔ rec.extractions = [] := by
  rw [extract_categories_eq_map] at hrec
  rcases List.mem_map.mp hrec with ⟨note, hnote, rfl⟩
  exact h note hnote

/-- C3 witness: a concrete batch and compliant collaborator for which the
persisted record satisfies the unused-iff-empty invariant. -/
theorem extract_unused_invariant_witness :
    (({ note_id := "0"
        extractions := [{ category := "Cat", content := "c" }]
        unused := false } : CategoryExtractionResponse).unused = true
      ↔ ({ note_id := "0"
           extractions := [{ category := "Cat", content := "c" }]
           unused := false } : CategoryExtractionResponse).extractions = []) :=
  extract_unused_invariant_of_collaborator
    (fun _ => { note_id := "0"
                extractions := [{ category := "Cat", content := "c" }]
                unused := false })
    [{ title := "a.md", content := "hello", ID := 0 }]
    (by decide)
    { note_id := "0"
      extractions := [{ category := "Cat", content := "c" }]
      unused := false }
    (by decide)

/-- C3 counterexample: a schema-valid collaborator response with
unused = false and an empty extractions list is persisted unchanged by
extract_categories, so a persisted ExtractionRecord violating the
unused-iff-empty invariant exists; the stage enforces nothing beyond the
schema shape. -/
theorem extract_persists_unused_invariant_violation :
    ∃ rec ∈ extract_categories
        (fun _ => { note_id := "0", extractions := [], unused := false })
        [{ title := "a.md", content := "hello", ID := 0 }],
      ¬(rec.unused = true ↔ rec.extractions = []) := by
  decide

/-- C4 (amended): extract_categories persists exactly one record per input
note, in input order; when the collaborator echoes each note's id (which
the code does not verify), the persisted note_id sequence equals the input
id sequence, so every NoteRecord is covered exactly once and every
note_id matches an existing NoteRecord. -/
theorem extract_covers_notes_when_ids_echoed
    (model : NoteRecord → CategoryExtractionResponse) (notes : List NoteRecord)
    (h : ∀ note ∈ notes, (model note).note_id = toString note.ID) :
    (extract_categories model notes).length = notes.length
    ∧ (extract_categories model notes).map (fun r => r.note_id)
        = notes.map (fun note => toString note.ID) := by
  constructor
  · rw [extract_categories_eq_map, List.length_map]
  · rw [extract_categories_eq_map, List.map_map]
    exact List.map_congr_left fun a ha => h a ha

/-- C4 witness: a concrete batch and id-echoing collaborator for which the
persisted sequence covers the input exactly once with matching ids. -/
theorem extract_covers_notes_witness :
    (extract_categories
        (fun note => { note_id := toString note.ID
                       extractions := []
                       unused := true })
        [{ title := "a.md", content := "hello", ID := 0 }]).length
      = ([{ title := "a.md", content := "hello", ID := 0 }] :
          List NoteRecord).length
    ∧ (extract_categories
        (fun note => { note_id := toString note.ID
                       extractions := []
                       unused := true })
        [{ title := "a.md", content := "hello", ID := 0 }]).map
          (fun r => r.note_id)
      = ([{ title := "a.md", content := "hello", ID := 0 }] :
          List NoteRecord).map (fun note => toString note.ID) :=
  extract_covers_notes_when_ids_echoed _ _ (by decide)

/-- C4 counterexample: the note_id of a persisted ExtractionRecord is taken
from the collaborator response without any cross-check, so a collaborator
that reports a foreign id yields a persisted record whose note_id matches
no NoteRecord of the input batch. -/
theorem extract_persists_foreign_note_id :
    ∃ rec ∈ extract_categories
        (fun _ => { note_id := "999"
                    extractions := [{ category := "C", content := "x" }]
                    unused := false })
        [{ title := "a.md", content := "hello", ID := 0 }],
      ∀ note ∈ ([{ title := "a.md", content := "hello", ID := 0 }] :
          List NoteRecord), rec.note_id ≠ toString note.ID := by
  decide

/-- C5 (code-bug evidence): running pre_process_notes twice on an intake
holding one source is not a no-op. The first run persists the ingested
record in the snapshot; the second run, finding the intake empty, rebuilds
the array from nothing and overwrites the snapshot with an empty list,
erasing the persisted notes. -/
theorem pre_process_second_run_overwrites_snapshot :
    (pre_process_notes
        { inbox := [("a.md", "hello")], processed := [], snapshot := [] }).snapshot
      = [{ title := "a.md", content := "hello", ID := 0 }]
    ∧ (pre_process_notes (pre_process_notes
        { inbox := [("a.md", "hello")], processed := [], snapshot := [] })).snapshot
      = [] := by
  decide

/-- C9: build_category_notes is deterministic: structurally equal extraction
records and structurally equal category mappings produce structurally equal
CategoryIndex values; since the embedding preserves insertion order, this
equality covers the order of canonical keys and the order of entries within
each bucket. -/
theorem build_category_notes_deterministic
    (e1 e2 : List CategoryExtractionResponse) (m1 m2 : CategoryNormalization)
    (he : e1 = e2) (hm : m1 = m2) :
    build_category_notes e1 m1 = build_category_notes e2 m2 := by
  rw [he, hm]

/-- C9 witness: determinism at a concrete extraction list and mapping. -/
theorem build_category_notes_deterministic_witness :
    build_category_notes
        [{ note_id := "1"
           extractions := [{ category := "Shopping", content := "buy milk" }]
           unused := false }]
        { categories := [("Shopping List", ["Shopping"])] }
      = build_category_notes
        [{ note_id := "1"
           extractions := [{ category := "Shopping", content := "buy milk" }]
           unused := false }]
        { categories := [("Shopping List", ["Shopping"])] } :=
  build_category_notes_deterministic _ _ _ _ rfl rfl

theorem bucket_addToCategory (idx : CategoryIndex) (c c2 : String)
    (e2 : Entry) :
    bucket (addToCategory idx c2 e2) c
      = if c2 = c then bucket idx c ++ [e2] else bucket idx c := by
  induction idx with
  | nil => by_cases h : c2 = c <;> simp [addToCategory, bucket, h]
  | cons p rest ih =>
    by_cases h2 : p.1 = c2
    · by_cases h : c2 = c
      · simp [addToCategory, bucket, h2, h, h2.trans h]
      · have hpc : ¬p.1 = c := by rw [h2]; exact h
        simp [addToCategory, bucket, h2, h, hpc]
    · by_cases hpc : p.1 = c
      · have h : ¬c2 = c := fun hh => h2 (hpc.trans hh.symm)
        have h2c : ¬c = c2 := by rw [← hpc]; exact h2
        simp [addToCategory, bucket, h2, h2c, hpc, h]
      · simp [addToCategory, bucket, h2, hpc, ih]

theorem mem_bucket_addToCategory_of_mem (idx : CategoryIndex) (c c2 : String)
    (e e2 : Entry) (h : e ∈ bucket idx c) :
    e ∈ bucket (addToCategory idx c2 e2) c := by
  rw [bucket_addToCategory]
  by_cases hc : c2 = c
  · rw [if_pos hc]; exact List.mem_append_left _ h
  · rw [if_neg hc]; exact h

theorem self_mem_bucket_addToCategory (idx : CategoryIndex) (c : String)
    (e : Entry) : e ∈ bucket (addToCategory idx c e) c := by
  rw [bucket_addToCategory, if_pos rfl]
  exact List.mem_append_right _ (List.mem_singleton.mpr rfl)

theorem mem_bucket_file_extractions_of_mem (lookup : String → Option String)
    (nid : String) (exs : List Extraction) (idx : CategoryIndex)
    (e : Entry) (c : String) (h : e ∈ bucket idx c) :
    e ∈ bucket
        (exs.foldl
          (fun org ex =>
            addToCategory org (normalized_cat lookup ex.category)
              { note_id := nid, content := ex.content })
          idx) c := by
  induction exs generalizing idx with
  | nil => exact h
  | cons a rest ih =>
    rw [List.foldl_cons]
    exact ih _ (mem_bucket_addToCategory_of_mem _ _ _ _ _ h)

theorem mem_bucket_file_extractions (lookup : String → Option String)
    (nid : String) (ex : Extraction) (exs : List Extraction) (hex : ex ∈ exs)
    (idx : CategoryIndex) :
    ({ note_id := nid, content := ex.content } : Entry)
      ∈ bucket
          (exs.foldl
            (fun org e2 =>
              addToCategory org (normalized_cat lookup e2.category)
                { note_id := nid, content := e2.content })
            idx)
          (normalized_cat lookup ex.category) := by
  induction exs generalizing idx with
  | nil => cases hex
  | cons a rest ih =>
    rw [List.foldl_cons]
    rcases List.mem_cons.mp hex with h | h
    · subst h
      exact mem_bucket_file_extractions_of_mem lookup nid rest _ _ _
        (self_mem_bucket_addToCategory idx _ _)
    · exact ih h _

theorem mem_bucket_organize_note (lookup : String → Option String)
    (idx : CategoryIndex) (note : CategoryExtractionResponse)
    (hun : note.unused = false) (ex : Extraction)
    (hex : ex ∈ note.extractions) :
    ({ note_id := note.note_id, content := ex.content } : Entry)
      ∈ bucket (organize_note lookup idx note)
          (normalized_cat lookup ex.category) := by
  simp only [organize_note, hun, Bool.false_eq_true, if_false]
  exact mem_bucket_file_extractions lookup note.note_id ex note.extractions hex idx

theorem mem_bucket_foldl_organize_of_mem (lookup : String → Option String)
    (exts : List CategoryExtractionResponse) (idx : CategoryIndex)
    (e : Entry) (c : String) (h : e ∈ bucket idx c) :
    e ∈ bucket (exts.foldl (organize_note lookup) idx) c := by
  induction exts generalizing idx with
  | nil => exact h
  | cons note rest ih =>
    rw [List.foldl_cons]
    apply ih
    by_cases hu : note.unused
    · simpa [organize_note, hu] using h
    · simp only [organize_note, hu, if_false]
      exact mem_bucket_file_extractions_of_mem lookup note.note_id
        note.extractions idx e c h

theorem mem_bucket_foldl_organize (lookup : String → Option String)
    (note : CategoryExtractionResponse) (hun : note.unused = false)
    (ex : Extraction) (hex : ex ∈ note.extractions) :
    ∀ exts : List CategoryExtractionResponse, note ∈ exts →
      ∀ idx : CategoryIndex,
        ({ note_id := note.note_id, content := ex.content } : Entry)
          ∈ bucket (exts.foldl (organize_note lookup) idx)
              (normalized_cat lookup ex.category) := by
  intro exts
  induction exts with
  | nil => intro h; cases h
  | cons hd rest ih =>
    intro hnote idx
    rw [List.foldl_cons]
    rcases List.mem_cons.mp hnote with h | h
    · subst h
      exact mem_bucket_foldl_organize_of_mem lookup rest _ _ _
        (mem_bucket_organize_note lookup idx note hun ex hex)
    · exact ih h _

/-- C6: a fragment of a non-unused ExtractionRecord whose raw category label
is not a key of the inverse lookup built from the CategoryMapping is filed
by build_category_notes under the raw label itself (identity fallback):
its (note_id, content) entry is present in the bucket keyed by the raw
label, so no fragment is discarded because its label is unmapped. -/
theorem orphan_fragment_filed_under_raw_label
    (extractions : List CategoryExtractionResponse)
    (merged_data : CategoryNormalization)
    (note : CategoryExtractionResponse) (hnote : note ∈ extractions)
    (hun : note.unused = false)
    (ex : Extraction) (hex : ex ∈ note.extractions)
    (hmiss : category_mapping merged_data.categories ex.category = none) :
    ({ note_id := note.note_id, content := ex.content } : Entry)
      ∈ bucket (build_category_notes extractions merged_data) ex.category := by
  have hfall :
      normalized_cat (category_mapping merged_data.categories) ex.category
        = ex.category := by
    simp [normalized_cat, hmiss]
  have h := mem_bucket_foldl_organize
    (category_mapping merged_data.categories) note hun ex hex
    extractions hnote []
  rw [hfall] at h
  exact h

/-- C6 witness: a concrete orphaned raw label is filed under itself. -/
theorem orphan_fragment_filed_witness :
    ({ note_id := "7", content := "body" } : Entry)
      ∈ bucket
          (build_category_notes
            [{ note_id := "7"
               extractions := [{ category := "Orphan", content := "body" }]
               unused := false }]
            { categories := [("X", ["a"])] })
          "Orphan" :=
  orphan_fragment_filed_under_raw_label
    [{ note_id := "7"
       extractions := [{ category := "Orphan", content := "body" }]
       unused := false }]
    { categories := [("X", ["a"])] }
    { note_id := "7"
      extractions := [{ category := "Orphan", content := "body" }]
      unused := false }
    (by decide) rfl
    { category := "Orphan", content := "body" }
    (by decide) (by decide)

theorem category_lookup_update (subs : List String) (v : String) :
    ∀ (acc : String → Option String) (r : String),
      subs.foldl
          (fun lk sub_name => fun s => if s = sub_name then some v else lk s)
          acc r
        = if r ∈ subs then some v else acc r := by
  induction subs with
  | nil => intro acc r; simp
  | cons a as ih =>
    intro acc r
    rw [List.foldl_cons, ih]
    by_cases hr : r ∈ as <;> by_cases ha : r = a <;>
      simp [hr, ha, List.mem_cons]

theorem category_mapping_go_eq_last_match
    (categories_dict : List (String × List String)) :
    ∀ (acc : String → Option String) (r : String),
      categories_dict.foldl
          (fun lookup g =>
            g.2.foldl
              (fun lk sub_name =>
                fun s => if s = sub_name then some g.1 else lk s)
              lookup)
          acc r
        = match last_match categories_dict r with
          | some c => some c
          | none => acc r := by
  induction categories_dict with
  | nil => intro acc r; simp [last_match]
  | cons g rest ih =>
    intro acc r
    rw [List.foldl_cons, ih, category_lookup_update]
    cases h : last_match rest r <;> by_cases hm : r ∈ g.2 <;>
      simp [last_match, h, hm]

theorem category_mapping_eq_last_match
    (categories_dict : List (String × List String)) (r : String) :
    category_mapping categories_dict r = last_match categories_dict r := by
  rw [category_mapping, category_mapping_go_eq_last_match]
  cases last_match categories_dict r <;> rfl

theorem last_match_eq_none (categories_dict : List (String × List String))
    (r : String) (h : ∀ g ∈ categories_dict, r ∉ g.2) :
    last_match categories_dict r = none := by
  induction categories_dict with
  | nil => rfl
  | cons g rest ih =>
    have hrest := ih fun g2 hg2 => h g2 (List.mem_cons_of_mem _ hg2)
    simp [last_match, hrest, h g (List.mem_cons_self g rest)]

theorem last_match_last_group (r : String) :
    ∀ (categories_dict : List (String × List String)) (j : Nat)
      (hj : j < categories_dict.length),
      r ∈ (categories_dict.get ⟨j, hj⟩).2 →
      (∀ (k : Nat) (hk : k < categories_dict.length), j < k →
        r ∉ (categories_dict.get ⟨k, hk⟩).2) →
      last_match categories_dict r = some (categories_dict.get ⟨j, hj⟩).1 := by
  intro categories_dict
  induction categories_dict with
  | nil => intro j hj; exact absurd hj (Nat.not_lt_zero j)
  | cons g rest ih =>
    intro j hj hmem hlast
    cases j with
    | zero =>
      have hnone : last_match rest r = none := by
        apply last_match_eq_none
        intro g2 hg2
        rcases List.mem_iff_get.mp hg2 with ⟨⟨k, hk⟩, hget⟩
        have h1 := hlast (k + 1) (Nat.succ_lt_succ hk) (Nat.succ_pos k)
        have h2 : r ∉ (rest.get ⟨k, hk⟩).2 := by simpa [List.get] using h1
        rw [← hget]
        exact h2
      simp only [List.get] at hmem ⊢
      simp [last_match, hnone, hmem]
    | succ j2 =>
      have hj2 : j2 < rest.length := Nat.lt_of_succ_lt_succ hj
      have hmem2 : r ∈ (rest.get ⟨j2, hj2⟩).2 := hmem
      have hlast2 : ∀ (k : Nat) (hk : k < rest.length), j2 < k →
          r ∉ (rest.get ⟨k, hk⟩).2 := by
        intro k hk hk2
        have := hlast (k + 1) (Nat.succ_lt_succ hk) (Nat.succ_lt_succ hk2)
        simpa [List.get] using this
      have hres := ih j2 hj2 hmem2 hlast2
      simp only [List.get]
      simp [last_match, hres]

/-- C7: in the inverse lookup built by build_category_notes, when the same
raw label appears in the value sets of two different canonical groups the
later-iterated group wins: the raw label maps to the canonical key of the
last group containing it, and a raw label appearing in any group is always
mapped to exactly one canonical key (the lookup is a function yielding this
single key). -/
theorem category_mapping_last_group_wins
    (categories_dict : List (String × List String)) (r : String) (j : Nat)
    (hj : j < categories_dict.length)
    (hmem : r ∈ (categories_dict.get ⟨j, hj⟩).2)
    (hlast : ∀ (k : Nat) (hk : k < categories_dict.length), j < k →
      r ∉ (categories_dict.get ⟨k, hk⟩).2) :
    category_mapping categories_dict r
      = some (categories_dict.get ⟨j, hj⟩).1 := by
  rw [category_mapping_eq_last_match]
  exact last_match_last_group r categories_dict j hj hmem hlast

/-- C7 witness: the raw label b appears in both groups; the lookup maps it
to the canonical key of the later group. -/
theorem category_mapping_last_group_wins_witness :
    category_mapping [("X", ["b"]), ("Y", ["b"])] "b" = some "Y" :=
  category_mapping_last_group_wins [("X", ["b"]), ("Y", ["b"])] "b" 1
    (by decide) (by decide) (by decide)

/-- C8 counterexample: in the ingestion trace of a two-source intake the
relocation of source 0 happens strictly before the record of source 1 is
built, so relocation does not happen only after all NoteRecords of the
batch have been built. -/
theorem ingest_moves_before_all_records_built :
    (ingest_trace 2).indexOf (IngestEvent.move 0)
      < (ingest_trace 2).indexOf (IngestEvent.build 1)
    ∧ IngestEvent.move 0 ∈ ingest_trace 2
    ∧ IngestEvent.build 1 ∈ ingest_trace 2 := by
  decide

/-- C8 (amended): during ingestion no source is relocated before its own
content has been read and its own record built: each source's move event
occurs exactly once, immediately after that source's read and build events;
relocation is interleaved per note rather than deferred until after the
whole batch. -/
theorem ingest_move_after_own_read_and_build (n i : Nat) (h : i < n) :
    ∃ pre post : List IngestEvent,
      ingest_trace n
        = pre ++ IngestEvent.read i :: IngestEvent.build i ::
            IngestEvent.move i :: post
      ∧ IngestEvent.move i ∉ pre ∧ IngestEvent.move i ∉ post := by
  obtain ⟨m, rfl⟩ : ∃ m, n = (i + 1) + m := ⟨n - (i + 1), by omega⟩
  refine ⟨(List.range i).flatMap ingest_step,
    ((List.range m).map fun j => i + 1 + j).flatMap ingest_step
      ++ [IngestEvent.writeSnapshot], ?_, ?_, ?_⟩
  · simp only [ingest_trace, List.range_add, List.flatMap_append,
      List.range_succ]
    simp [ingest_step]
  · intro hmem
    rcases List.mem_flatMap.mp hmem with ⟨j, hj, hstep⟩
    have hji : j < i := List.mem_range.mp hj
    simp [ingest_step] at hstep
    omega
  · intro hmem
    rcases List.mem_append.mp hmem with hm | hm
    · rcases List.mem_flatMap.mp hm with ⟨j, hj, hstep⟩
      rcases List.mem_map.mp hj with ⟨j2, hj2, rfl⟩
      simp [ingest_step] at hstep
      omega
    · simp at hm

/-- C8 witness: the decomposition at a concrete one-source trace. -/
theorem ingest_move_after_own_read_and_build_witness :
    ∃ pre post : List IngestEvent,
      ingest_trace 1
        = pre ++ IngestEvent.read 0 :: IngestEvent.build 0 ::
            IngestEvent.move 0 :: post
      ∧ IngestEvent.move 0 ∉ pre ∧ IngestEvent.move 0 ∉ post :=
  ingest_move_after_own_read_and_build 1 0 (by decide)

theorem mem_addToCategory (idx : CategoryIndex) (c : String) (e : Entry) :
    ∀ p ∈ addToCategory idx c e, p ∈ idx ∨ (p.1 = c ∧ p.2 ≠ []) := by
  induction idx with
  | nil =>
    intro p hp
    simp only [addToCategory, List.mem_singleton] at hp
    subst hp
    exact Or.inr ⟨rfl, by simp⟩
  | cons q rest ih =>
    intro p hp
    by_cases h : q.1 = c
    · simp only [addToCategory, if_pos h] at hp
      rcases List.mem_cons.mp hp with h1 | h1
      · subst h1; exact Or.inr ⟨h, by simp⟩
      · exact Or.inl (List.mem_cons_of_mem _ h1)
    · simp only [addToCategory, if_neg h] at hp
      rcases List.mem_cons.mp hp with h1 | h1
      · subst h1; exact Or.inl (List.mem_cons_self _ _)
      · rcases ih p h1 with h2 | h2
        · exact Or.inl (List.mem_cons_of_mem _ h2)
        · exact Or.inr h2

theorem inv_file_extractions (lookup : String → Option String)
    (P : String → Prop) (nid : String) :
    ∀ exs : List Extraction,
      (∀ ex ∈ exs, P (normalized_cat lookup ex.category)) →
      ∀ idx : CategoryIndex, (∀ p ∈ idx, p.2 ≠ [] ∧ P p.1) →
      ∀ p ∈ exs.foldl
          (fun org ex =>
            addToCategory org (normalized_cat lookup ex.category)
              { note_id := nid, content := ex.content })
          idx,
        p.2 ≠ [] ∧ P p.1 := by
  intro exs
  induction exs with
  | nil => intro _ idx hidx p hp; exact hidx p hp
  | cons a rest ih =>
    intro hexs idx hidx p hp
    rw [List.foldl_cons] at hp
    refine ih (fun ex hex => hexs ex (List.mem_cons_of_mem _ hex)) _ ?_ p hp
    intro q hq
    rcases mem_addToCategory idx _ _ q hq with h1 | h1
    · exact hidx q h1
    · exact ⟨h1.2, by rw [h1.1]; exact hexs a (List.mem_cons_self _ _)⟩

theorem inv_organize_note (lookup : String → Option String)
    (P : String → Prop) (note : CategoryExtractionResponse)
    (h : note.unused = false →
      ∀ ex ∈ note.extractions, P (normalized_cat lookup ex.category))
    (idx : CategoryIndex) (hidx : ∀ p ∈ idx, p.2 ≠ [] ∧ P p.1) :
    ∀ p ∈ organize_note lookup idx note, p.2 ≠ [] ∧ P p.1 := by
  by_cases hu : note.unused
  · simpa [organize_note, hu] using hidx
  · have hu2 : note.unused = false := by simpa using hu
    simp only [organize_note, hu2, Bool.false_eq_true, if_false]
    exact inv_file_extractions lookup P note.note_id note.extractions
      (h hu2) idx hidx

theorem inv_foldl_organize (lookup : String → Option String)
    (P : String → Prop) :
    ∀ exts : List CategoryExtractionResponse,
      (∀ note ∈ exts, note.unused = false →
        ∀ ex ∈ note.extractions, P (normalized_cat lookup ex.category)) →
      ∀ idx : CategoryIndex, (∀ p ∈ idx, p.2 ≠ [] ∧ P p.1) →
      ∀ p ∈ exts.foldl (organize_note lookup) idx, p.2 ≠ [] ∧ P p.1 := by
  intro exts
  induction exts with
  | nil => intro _ idx hidx p hp; exact hidx p hp
  | cons note rest ih =>
    intro hexts idx hidx p hp
    rw [List.foldl_cons] at hp
    exact ih (fun n hn => hexts n (List.mem_cons_of_mem _ hn)) _
      (inv_organize_note lookup P note (hexts note (List.mem_cons_self _ _))
        idx hidx)
      p hp

/-- C10 (amended): every key present in the CategoryIndex produced by
build_category_notes has a non-empty bucket, and every key is the
normalized-or-fallback image of the raw label of some fragment of some
non-unused record; hence a canonical category of the mapping none of whose
raw labels occurs in any non-unused fragment appears as a key only when its
own name occurs as a raw label uncovered by the mapping (identity
fallback). -/
theorem index_keys_nonempty_and_from_fragments
    (extractions : List CategoryExtractionResponse)
    (merged_data : CategoryNormalization) (p : String × List Entry)
    (hp : p ∈ build_category_notes extractions merged_data) :
    p.2 ≠ []
    ∧ ∃ note ∈ extractions, note.unused = false
        ∧ ∃ ex ∈ note.extractions,
            normalized_cat (category_mapping merged_data.categories)
              ex.category = p.1 := by
  simp only [build_category_notes] at hp
  exact inv_foldl_organize (category_mapping merged_data.categories)
    (fun key => ∃ note ∈ extractions, note.unused = false
      ∧ ∃ ex ∈ note.extractions,
          normalized_cat (category_mapping merged_data.categories)
            ex.category = key)
    extractions
    (fun note hn hun ex hex => ⟨note, hn, hun, ex, hex, rfl⟩)
    [] (by simp) p hp

/-- C10 witness: the single bucket of a concrete index is non-empty and its
key arises from an occurring fragment. -/
theorem index_keys_nonempty_witness :
    ([({ note_id := "0", content := "c" } : Entry)] ≠ [])
    ∧ ∃ note ∈ [({ note_id := "0"
                   extractions := [{ category := "X", content := "c" }]
                   unused := false } : CategoryExtractionResponse)],
        note.unused = false
        ∧ ∃ ex ∈ note.extractions,
            normalized_cat
              (category_mapping
                ({ categories := [("X", ["a"])] } :
                  CategoryNormalization).categories)
              ex.category = "X" :=
  index_keys_nonempty_and_from_fragments
    [{ note_id := "0"
       extractions := [{ category := "X", content := "c" }]
       unused := false }]
    { categories := [("X", ["a"])] }
    ("X", [{ note_id := "0", content := "c" }])
    (by decide)

/-- C10 counterexample: the canonical category X of the mapping has raw
label set containing only a, which occurs in no non-unused fragment; still
X is a key of the produced index, because the fragment label X itself is
uncovered by the mapping and the identity fallback files it under X. -/
theorem unmatched_canonical_key_appears_via_fallback :
    ("X", ["a"]) ∈ ({ categories := [("X", ["a"])] } :
        CategoryNormalization).categories
    ∧ (∀ note ∈ [({ note_id := "0"
                    extractions := [{ category := "X", content := "c" }]
                    unused := false } : CategoryExtractionResponse)],
        note.unused = false
        ∧ ∀ ex ∈ note.extractions, ∀ raw ∈ ["a"], ex.category ≠ raw)
    ∧ ∃ p ∈ build_category_notes
        [{ note_id := "0"
           extractions := [{ category := "X", content := "c" }]
           unused := false }]
        { categories := [("X", ["a"])] }, p.1 = "X" := by
  decide

end NoteSynthesis
